import Mathlib

/-!
Verification of the FinanceSync financial aggregation / projection /
reconciliation engine against its implementation.

The cash-flow projector, the revenue-summary row builder and the API
client response handling are embedded from the frontend sources
(frontend/app/(app)/dashboard/index.tsx, frontend/app/(app)/ai-chat/index.tsx,
frontend/src/services/apiClient.ts).  The backend category-tree
aggregator and the confirm endpoint are not part of the source tree and
are modelled from the specification where a claim needs them.
-/

namespace FinanceSync

/-! ## Data model of the dashboard cash-flow projection

Mirrors the TypeScript types `ForecastSummary`, `BalanceSummary`,
`CompanyOverview` from frontend/app/(app)/dashboard/index.tsx, keeping
only the fields the projection reads.  Monetary amounts are integers in
minor currency units, as the specification fixes. -/

/-- One element of `forecast.expensesMonthly`. -/
structure MonthlyExpense where
  month : String
  amount : Int
deriving DecidableEq

/-- One element of `forecast.incomesMonthly`. -/
structure MonthlyIncome where
  month : String
  certain : Int
  uncertain : Int
deriving DecidableEq

/-- The `ForecastSummary` fields read by `cashflowRows`. -/
structure ForecastSummary where
  expensesMonthly : Option (List MonthlyExpense)
  incomesMonthly : Option (List MonthlyIncome)
deriving DecidableEq

/-- The `BalanceSummary` fields read by `cashflowRows`. -/
structure BalanceSummary where
  cash : Int
  investment : Int
  total : Int
deriving DecidableEq

/-- The `CompanyOverview` fields read by `cashflowRows`. -/
structure CompanyOverview where
  balances : Option BalanceSummary
  forecast : Option ForecastSummary
deriving DecidableEq

/-! ## JavaScript `Map<string, number>` as an association list

`Map.set` overwrites in place when the key is present and appends
otherwise; `Map.get` returns the value of the (unique) entry with the
key, and the code reads it as `map.get(k) || 0`. -/

/-- A JS `Map<string, number>` in insertion order. -/
abbrev StrMap := List (String × Int)

/-- `map.get(k)`. -/
def mapGet (m : StrMap) (k : String) : Option Int :=
  (m.find? (fun p => p.1 == k)).map (fun p => p.2)

/-- `map.get(k) || 0` (amounts absent from the map count as 0). -/
def mapGetD (m : StrMap) (k : String) : Int :=
  (mapGet m k).getD 0

/-- `map.set(k, v)`: overwrite in place, or append when absent. -/
def mapSet (m : StrMap) (k : String) (v : Int) : StrMap :=
  if m.any (fun p => p.1 == k) then
    m.map (fun p => if p.1 == k then (k, v) else p)
  else
    m ++ [(k, v)]

/-- Keys of the map in insertion order. -/
def mapKeys (m : StrMap) : List String :=
  m.map (fun p => p.1)

/-! ## Bucket construction (dashboard lines 568-589)

`expenseMap` accumulates every entry; the income maps only accumulate an
entry when the corresponding amount is strictly positive. -/

/-- `forecast.expensesMonthly.forEach((item) => expenseMap.set(item.month,
(expenseMap.get(item.month) || 0) + item.amount))`. -/
def buildExpenseMap (items : List MonthlyExpense) : StrMap :=
  items.foldl (fun acc i => mapSet acc i.month (mapGetD acc i.month + i.amount)) []

/-- The body of the `forecast.incomesMonthly.forEach` loop: the certain
map accumulates `item.certain` only when `item.certain > 0`, the
uncertain map accumulates `item.uncertain` only when `item.uncertain > 0`. -/
def incomeStep (acc : StrMap × StrMap) (i : MonthlyIncome) : StrMap × StrMap :=
  ((if i.certain > 0 then mapSet acc.1 i.month (mapGetD acc.1 i.month + i.certain) else acc.1),
   (if i.uncertain > 0 then mapSet acc.2 i.month (mapGetD acc.2 i.month + i.uncertain) else acc.2))

/-- Builds `(incomeCertainMap, incomeUncertainMap)`. -/
def buildIncomeMaps (items : List MonthlyIncome) : StrMap × StrMap :=
  items.foldl incomeStep ([], [])

/-! ## Month set and ordering (dashboard lines 591-617)

The JS `Set` seeded with the current month, extended with every bucket
key `>= currentMonth`, then `Array.from(set).sort()` (default string
comparison, code-unit order).  The `Set` is a duplicate-free list in
insertion order; the string order is embedded as an executable
character-wise comparison. -/

/-- Lexicographic comparison of character lists by code point, the order
JS uses for `month >= currentMonth` and `Array.prototype.sort()`. -/
def charListLe : List Char → List Char → Bool
  | [], _ => true
  | _ :: _, [] => false
  | a :: as, b :: bs =>
    if a.toNat < b.toNat then true
    else if b.toNat < a.toNat then false
    else charListLe as bs

/-- JS string `<=` on month keys. -/
def monthLe (a b : String) : Bool := charListLe a.data b.data

/-- JS `Set.add`: append when absent, keep otherwise. -/
def setAdd (s : List String) (x : String) : List String :=
  if x ∈ s then s else s ++ [x]

/-- One of the three `map.forEach((_, month) => { if (month >= currentMonth)
allMonths.add(month) })` loops. -/
def addMonths (currentMonth : String) (s : List String) (ks : List String) : List String :=
  ks.foldl (fun acc m => if monthLe currentMonth m then setAdd acc m else acc) s

/-- `allMonths`: the current month plus every bucket key not before it. -/
def allMonths (currentMonth : String)
    (expenseMap incomeCertainMap incomeUncertainMap : StrMap) : List String :=
  addMonths currentMonth
    (addMonths currentMonth
      (addMonths currentMonth (setAdd [] currentMonth) (mapKeys expenseMap))
      (mapKeys incomeCertainMap))
    (mapKeys incomeUncertainMap)

/-- `Array.from(allMonths).sort()`. -/
def sortedMonths (l : List String) : List String :=
  l.insertionSort (fun a b => monthLe a b = true)

/-- `sortedMonths.length > 0 ? sortedMonths : [currentMonth]`. -/
def monthsToShow (currentMonth : String)
    (expenseMap incomeCertainMap incomeUncertainMap : StrMap) : List String :=
  let sorted :=
    sortedMonths (allMonths currentMonth expenseMap incomeCertainMap incomeUncertainMap)
  if sorted.length > 0 then sorted else [currentMonth]

/-! ## The running-balance fold (dashboard lines 619-650) -/

/-- One emitted cash-flow row. -/
structure CashflowRow where
  month : String
  openingBalance : Int
  certainIncome : Int
  uncertainIncome : Int
  expense : Int
  closingBalance : Int
deriving DecidableEq

/-- The `monthsToShow.forEach` loop: seed `balance`, emit one row per
month, carry the closing balance forward. -/
def cashflowFold (incomeCertainMap incomeUncertainMap expenseMap : StrMap)
    (includeCertainIncome includeUncertainIncome : Bool) :
    List String → Int → List CashflowRow
  | [], _ => []
  | m :: rest, balance =>
    let openingBalance := balance
    let certainIncome := if includeCertainIncome then mapGetD incomeCertainMap m else 0
    let uncertainIncome := if includeUncertainIncome then mapGetD incomeUncertainMap m else 0
    let expense := mapGetD expenseMap m
    let closingBalance := openingBalance + certainIncome + uncertainIncome - expense
    { month := m
      openingBalance := openingBalance
      certainIncome := certainIncome
      uncertainIncome := uncertainIncome
      expense := expense
      closingBalance := closingBalance } ::
      cashflowFold incomeCertainMap incomeUncertainMap expenseMap
        includeCertainIncome includeUncertainIncome rest closingBalance

/-- `cashflowRows` (dashboard lines 562-650): empty when the company, its
balances or its forecast are missing; otherwise the fold over the sorted
month list seeded with `balances.total`. -/
def cashflowRows (currentCompany : Option CompanyOverview)
    (includeCertainIncome includeUncertainIncome : Bool) (currentMonth : String) :
    List CashflowRow :=
  match currentCompany with
  | none => []
  | some company =>
    match company.forecast, company.balances with
    | some forecast, some balances =>
      let expenseMap := buildExpenseMap (forecast.expensesMonthly.getD [])
      let incomeMaps := buildIncomeMaps (forecast.incomesMonthly.getD [])
      cashflowFold incomeMaps.1 incomeMaps.2 expenseMap
        includeCertainIncome includeUncertainIncome
        (monthsToShow currentMonth expenseMap incomeMaps.1 incomeMaps.2)
        balances.total
    | _, _ => []

/-- Initial value of the `includeCertainIncome` state (dashboard line 163). -/
def includeCertainIncomeDefault : Bool := true

/-- Initial value of the `includeUncertainIncome` state (dashboard line 164). -/
def includeUncertainIncomeDefault : Bool := false

/-! ## Association-list lemmas for the JS map -/

theorem strBeq (a b : String) : ((a == b) = true) ↔ a = b :=
  ⟨eq_of_beq, fun h => h ▸ beq_self_eq_true a⟩

theorem mapGet_map_ne (mp : StrMap) (k : String) (v : Int) (k2 : String) (hne : k2 ≠ k) :
    mapGet (mp.map (fun p => if p.1 == k then (k, v) else p)) k2 = mapGet mp k2 := by
  induction mp with
  | nil => rfl
  | cons p rest ih =>
    rw [List.map_cons]
    by_cases hp : p.1 = k
    · have hhead : (if p.1 == k then ((k, v) : String × Int) else p) = (k, v) := by
        rw [if_pos (by rw [strBeq]; exact hp)]
      rw [hhead]
      unfold mapGet
      rw [List.find?_cons_of_neg _ (by rw [strBeq]; exact fun hh => hne hh.symm),
        List.find?_cons_of_neg _ (by rw [strBeq]; rw [hp]; exact fun hh => hne hh.symm)]
      exact ih
    · have hhead : (if p.1 == k then ((k, v) : String × Int) else p) = p := by
        rw [if_neg (by rw [strBeq]; exact hp)]
      rw [hhead]
      by_cases hp2 : p.1 = k2
      · unfold mapGet
        rw [List.find?_cons_of_pos _ (by rw [strBeq]; exact hp2),
          List.find?_cons_of_pos _ (by rw [strBeq]; exact hp2)]
      · unfold mapGet
        rw [List.find?_cons_of_neg _ (by rw [strBeq]; exact hp2),
          List.find?_cons_of_neg _ (by rw [strBeq]; exact hp2)]
        exact ih

theorem mapGet_map_self (mp : StrMap) (k : String) (v : Int)
    (hmem : ∃ p ∈ mp, p.1 = k) :
    mapGet (mp.map (fun p => if p.1 == k then (k, v) else p)) k = some v := by
  induction mp with
  | nil => simp at hmem
  | cons p rest ih =>
    rw [List.map_cons]
    by_cases hp : p.1 = k
    · have hhead : (if p.1 == k then ((k, v) : String × Int) else p) = (k, v) := by
        rw [if_pos (by rw [strBeq]; exact hp)]
      rw [hhead]
      unfold mapGet
      rw [List.find?_cons_of_pos _ (by rw [strBeq])]
      rfl
    · have hhead : (if p.1 == k then ((k, v) : String × Int) else p) = p := by
        rw [if_neg (by rw [strBeq]; exact hp)]
      rw [hhead]
      have hmem2 : ∃ q ∈ rest, q.1 = k := by
        rcases hmem with ⟨q, hq, hqk⟩
        rcases List.mem_cons.mp hq with rfl | hq2
        · exact absurd hqk hp
        · exact ⟨q, hq2, hqk⟩
      unfold mapGet
      rw [List.find?_cons_of_neg _ (by rw [strBeq]; exact hp)]
      exact ih hmem2

theorem mapGet_append_single (mp : StrMap) (k : String) (v : Int) (k2 : String)
    (habs : ∀ p ∈ mp, p.1 ≠ k) :
    mapGet (mp ++ [(k, v)]) k2 = if k2 = k then some v else mapGet mp k2 := by
  induction mp with
  | nil =>
    rw [List.nil_append]
    by_cases h : k2 = k
    · unfold mapGet
      rw [List.find?_cons_of_pos _ (by rw [strBeq]; exact h.symm), if_pos h]
      rfl
    · unfold mapGet
      rw [List.find?_cons_of_neg _ (by rw [strBeq]; exact fun hh => h hh.symm),
        List.find?_nil, if_neg h]
  | cons p rest ih =>
    have hp : p.1 ≠ k := habs p (List.mem_cons_self p rest)
    have ih2 := ih (fun q hq => habs q (List.mem_cons_of_mem p hq))
    rw [List.cons_append]
    by_cases hp2 : p.1 = k2
    · have hkk : k2 ≠ k := fun hh => hp (hp2.trans hh)
      unfold mapGet
      rw [List.find?_cons_of_pos _ (by rw [strBeq]; exact hp2), if_neg hkk,
        List.find?_cons_of_pos _ (by rw [strBeq]; exact hp2)]
    · unfold mapGet
      rw [List.find?_cons_of_neg _ (by rw [strBeq]; exact hp2)]
      unfold mapGet at ih2
      rw [ih2]
      by_cases h : k2 = k
      · rw [if_pos h, if_pos h]
      · rw [if_neg h, if_neg h,
          List.find?_cons_of_neg _ (by rw [strBeq]; exact hp2)]

/-- `map.set` followed by `map.get`: the written key reads back the written
value, every other key is untouched. -/
theorem mapGet_mapSet (mp : StrMap) (k : String) (v : Int) (k2 : String) :
    mapGet (mapSet mp k v) k2 = if k2 = k then some v else mapGet mp k2 := by
  unfold mapSet
  by_cases hany : mp.any (fun p => p.1 == k) = true
  · rw [if_pos hany]
    by_cases h : k2 = k
    · subst h
      rw [if_pos rfl]
      apply mapGet_map_self
      rcases List.any_eq_true.mp hany with ⟨p, hp, hpk⟩
      exact ⟨p, hp, by simpa [beq_iff_eq] using hpk⟩
    · rw [if_neg h]
      exact mapGet_map_ne mp k v k2 h
  · rw [if_neg hany]
    apply mapGet_append_single
    intro p hp hpk
    exact hany (List.any_eq_true.mpr ⟨p, hp, by simp [hpk]⟩)

theorem mapGetD_mapSet (mp : StrMap) (k : String) (v : Int) (k2 : String) :
    mapGetD (mapSet mp k v) k2 = if k2 = k then v else mapGetD mp k2 := by
  unfold mapGetD
  rw [mapGet_mapSet]
  by_cases h : k2 = k <;> simp [h]

/-! ## Lemmas about the running-balance fold -/

theorem cashflowFold_map_month (ic iu e : StrMap) (c u : Bool) :
    ∀ (ms : List String) (b : Int),
      (cashflowFold ic iu e c u ms b).map (fun r => r.month) = ms := by
  intro ms
  induction ms with
  | nil => intro b; rfl
  | cons m rest ih =>
    intro b
    simp only [cashflowFold, List.map_cons, ih]

theorem cashflowFold_length (ic iu e : StrMap) (c u : Bool) (ms : List String) (b : Int) :
    (cashflowFold ic iu e c u ms b).length = ms.length := by
  have h := cashflowFold_map_month ic iu e c u ms b
  calc (cashflowFold ic iu e c u ms b).length
      = ((cashflowFold ic iu e c u ms b).map (fun r => r.month)).length := by
        rw [List.length_map]
    _ = ms.length := by rw [h]

/-- The head row of the fold on a nonempty month list. -/
def headRow (ic iu e : StrMap) (c u : Bool) (m : String) (b : Int) : CashflowRow :=
  { month := m
    openingBalance := b
    certainIncome := if c then mapGetD ic m else 0
    uncertainIncome := if u then mapGetD iu m else 0
    expense := mapGetD e m
    closingBalance :=
      b + (if c then mapGetD ic m else 0) + (if u then mapGetD iu m else 0) - mapGetD e m }

theorem cashflowFold_cons (ic iu e : StrMap) (c u : Bool) (m : String)
    (rest : List String) (b : Int) :
    cashflowFold ic iu e c u (m :: rest) b =
      headRow ic iu e c u m b ::
        cashflowFold ic iu e c u rest (headRow ic iu e c u m b).closingBalance := rfl

/-- Placeholder row used as the `getD` default when indexing rows. -/
def defaultRow : CashflowRow :=
  { month := ""
    openingBalance := 0
    certainIncome := 0
    uncertainIncome := 0
    expense := 0
    closingBalance := 0 }

/-- The n-th emitted row. -/
def rowAt (ic iu e : StrMap) (c u : Bool) (ms : List String) (b : Int) (n : Nat) :
    CashflowRow :=
  (cashflowFold ic iu e c u ms b).getD n defaultRow

theorem rowAt_zero (ic iu e : StrMap) (c u : Bool) (m : String) (rest : List String)
    (b : Int) :
    rowAt ic iu e c u (m :: rest) b 0 = headRow ic iu e c u m b := rfl

theorem rowAt_succ (ic iu e : StrMap) (c u : Bool) (m : String) (rest : List String)
    (b : Int) (n : Nat) :
    rowAt ic iu e c u (m :: rest) b (n + 1)
      = rowAt ic iu e c u rest (headRow ic iu e c u m b).closingBalance n := rfl

/-- Every row of the fold satisfies the claimed per-row equations: income
components gated by the flags, expense from the bucket, closing balance by
the balance equation, opening balance seeded then chained. -/
theorem cashflowFold_spec (ic iu e : StrMap) (c u : Bool) :
    ∀ (ms : List String) (b : Int) (n : Nat), n < ms.length →
      (rowAt ic iu e c u ms b n).certainIncome
          = (if c then mapGetD ic (rowAt ic iu e c u ms b n).month else 0) ∧
      (rowAt ic iu e c u ms b n).uncertainIncome
          = (if u then mapGetD iu (rowAt ic iu e c u ms b n).month else 0) ∧
      (rowAt ic iu e c u ms b n).expense
          = mapGetD e (rowAt ic iu e c u ms b n).month ∧
      (rowAt ic iu e c u ms b n).closingBalance
          = (rowAt ic iu e c u ms b n).openingBalance
            + (rowAt ic iu e c u ms b n).certainIncome
            + (rowAt ic iu e c u ms b n).uncertainIncome
            - (rowAt ic iu e c u ms b n).expense ∧
      (n = 0 → (rowAt ic iu e c u ms b n).openingBalance = b) ∧
      (n + 1 < ms.length →
        (rowAt ic iu e c u ms b (n + 1)).openingBalance
          = (rowAt ic iu e c u ms b n).closingBalance) := by
  intro ms
  induction ms with
  | nil =>
    intro b n h
    simp at h
  | cons m rest ih =>
    intro b n h
    match n with
    | 0 =>
      refine ⟨rfl, rfl, rfl, rfl, fun _ => rfl, ?_⟩
      intro h2
      simp only [List.length_cons] at h2
      have h3 : 0 < rest.length := by omega
      have hih := ih (headRow ic iu e c u m b).closingBalance 0 h3
      rw [rowAt_succ, rowAt_zero]
      exact hih.2.2.2.2.1 rfl
    | Nat.succ k =>
      simp only [List.length_cons] at h
      have h3 : k < rest.length := by omega
      have hih := ih (headRow ic iu e c u m b).closingBalance k h3
      rw [rowAt_succ]
      refine ⟨hih.1, hih.2.1, hih.2.2.1, hih.2.2.2.1,
        fun hk => absurd hk (Nat.succ_ne_zero k), ?_⟩
      intro h2
      simp only [List.length_cons] at h2
      rw [rowAt_succ]
      exact hih.2.2.2.2.2 (by omega)


/-- The n-th row is a function of the starting balance and the buckets at
the first n+1 months only: folds over the same month list from the same
seed agree at index n whenever the three buckets agree on those months. -/
theorem rowAt_congr (c u : Bool) :
    ∀ (ms : List String) (e ic iu e2 ic2 iu2 : StrMap) (b : Int) (n : Nat),
      (∀ m ∈ ms.take (n + 1),
        mapGetD e m = mapGetD e2 m ∧ mapGetD ic m = mapGetD ic2 m ∧
          mapGetD iu m = mapGetD iu2 m) →
      rowAt ic iu e c u ms b n = rowAt ic2 iu2 e2 c u ms b n := by
  intro ms
  induction ms with
  | nil => intro e ic iu e2 ic2 iu2 b n hag; rfl
  | cons m rest ih =>
    intro e ic iu e2 ic2 iu2 b n hag
    have hm := hag m (by rw [List.take_succ_cons]; exact List.mem_cons_self m _)
    have hhead : headRow ic iu e c u m b = headRow ic2 iu2 e2 c u m b := by
      unfold headRow
      rw [hm.1, hm.2.1, hm.2.2]
    match n with
    | 0 => rw [rowAt_zero, rowAt_zero, hhead]
    | Nat.succ k =>
      rw [rowAt_succ, rowAt_succ, hhead]
      apply ih
      intro x hx
      refine hag x ?_
      rw [List.take_succ_cons]
      exact List.mem_cons_of_mem m hx

/-! ## Month-set lemmas -/

theorem mem_setAdd (s : List String) (k x : String) :
    x ∈ setAdd s k ↔ x ∈ s ∨ x = k := by
  unfold setAdd
  by_cases h : k ∈ s
  · rw [if_pos h]
    constructor
    · exact Or.inl
    · rintro (hx | rfl)
      · exact hx
      · exact h
  · rw [if_neg h]
    simp [List.mem_append]

theorem mem_addMonths (cm : String) :
    ∀ (ks s : List String) (x : String),
      x ∈ addMonths cm s ks ↔ (x ∈ s ∨ (monthLe cm x = true ∧ x ∈ ks)) := by
  intro ks
  induction ks with
  | nil => intro s x; simp [addMonths]
  | cons k rest ih =>
    intro s x
    unfold addMonths
    rw [List.foldl_cons]
    have hres := ih (if monthLe cm k = true then setAdd s k else s) x
    unfold addMonths at hres
    rw [hres]
    by_cases hk : monthLe cm k = true
    · rw [if_pos hk, mem_setAdd]
      constructor
      · rintro ((hx | rfl) | ⟨hle, hmem⟩)
        · exact Or.inl hx
        · exact Or.inr ⟨hk, List.mem_cons_self x rest⟩
        · exact Or.inr ⟨hle, List.mem_cons_of_mem k hmem⟩
      · rintro (hx | ⟨hle, hmem⟩)
        · exact Or.inl (Or.inl hx)
        · rcases List.mem_cons.mp hmem with rfl | h2
          · exact Or.inl (Or.inr rfl)
          · exact Or.inr ⟨hle, h2⟩
    · rw [if_neg hk]
      constructor
      · rintro (hx | ⟨hle, hmem⟩)
        · exact Or.inl hx
        · exact Or.inr ⟨hle, List.mem_cons_of_mem k hmem⟩
      · rintro (hx | ⟨hle, hmem⟩)
        · exact Or.inl hx
        · rcases List.mem_cons.mp hmem with rfl | h2
          · exact absurd hle hk
          · exact Or.inr ⟨hle, h2⟩

theorem mem_allMonths (cm x : String) (e ic iu : StrMap) :
    x ∈ allMonths cm e ic iu ↔
      x = cm ∨ (monthLe cm x = true ∧
        (x ∈ mapKeys e ∨ x ∈ mapKeys ic ∨ x ∈ mapKeys iu)) := by
  unfold allMonths
  rw [mem_addMonths, mem_addMonths, mem_addMonths, mem_setAdd]
  simp only [List.not_mem_nil, false_or]
  tauto

theorem charListLe_total : ∀ (as bs : List Char),
    charListLe as bs = true ∨ charListLe bs as = true := by
  intro as
  induction as with
  | nil => intro bs; exact Or.inl rfl
  | cons a as2 ih =>
    intro bs
    match bs with
    | [] => exact Or.inr rfl
    | b :: bs2 =>
      unfold charListLe
      rcases Nat.lt_trichotomy a.toNat b.toNat with h | h | h
      · left
        rw [if_pos h]
      · rcases ih bs2 with h2 | h2
        · left
          rw [if_neg (by omega), if_neg (by omega)]
          exact h2
        · right
          rw [if_neg (by omega), if_neg (by omega)]
          exact h2
      · right
        rw [if_pos h]

theorem charListLe_trans : ∀ (as bs cs : List Char),
    charListLe as bs = true → charListLe bs cs = true → charListLe as cs = true := by
  intro as
  induction as with
  | nil => intro bs cs h1 h2; rfl
  | cons a as2 ih =>
    intro bs cs h1 h2
    match bs, cs with
    | [], _ => simp [charListLe] at h1
    | b :: bs2, [] => simp [charListLe] at h2
    | b :: bs2, c :: cs2 =>
      unfold charListLe at h1 h2 ⊢
      by_cases hab : a.toNat < b.toNat
      · rw [if_pos hab] at h1
        by_cases hbc : b.toNat < c.toNat
        · rw [if_pos (by omega)]
        · rw [if_neg hbc] at h2
          by_cases hcb : c.toNat < b.toNat
          · rw [if_pos hcb] at h2
            exact absurd h2 (by simp)
          · rw [if_pos (by omega)]
      · rw [if_neg hab] at h1
        by_cases hba : b.toNat < a.toNat
        · rw [if_pos hba] at h1
          exact absurd h1 (by simp)
        · rw [if_neg hba] at h1
          by_cases hbc : b.toNat < c.toNat
          · rw [if_pos hbc] at h2
            rw [if_pos (by omega)]
          · rw [if_neg hbc] at h2
            by_cases hcb : c.toNat < b.toNat
            · rw [if_pos hcb] at h2
              exact absurd h2 (by simp)
            · rw [if_neg hcb] at h2
              rw [if_neg (by omega), if_neg (by omega)]
              exact ih bs2 cs2 h1 h2

instance monthLeIsTotal : IsTotal String (fun a b => monthLe a b = true) :=
  ⟨fun a b => charListLe_total a.data b.data⟩

instance monthLeIsTrans : IsTrans String (fun a b => monthLe a b = true) :=
  ⟨fun a b c => charListLe_trans a.data b.data c.data⟩

theorem sortedMonths_sorted (l : List String) :
    (sortedMonths l).Sorted (fun a b => monthLe a b = true) :=
  List.sorted_insertionSort _ l

theorem sortedMonths_perm (l : List String) :
    (sortedMonths l).Perm l :=
  List.perm_insertionSort _ l

theorem mem_sortedMonths (l : List String) (x : String) :
    x ∈ sortedMonths l ↔ x ∈ l :=
  (sortedMonths_perm l).mem_iff

theorem allMonths_ne_nil (cm : String) (e ic iu : StrMap) :
    allMonths cm e ic iu ≠ [] := by
  intro h
  have hmem : cm ∈ allMonths cm e ic iu := (mem_allMonths cm cm e ic iu).mpr (Or.inl rfl)
  rw [h] at hmem
  exact List.not_mem_nil cm hmem

theorem monthsToShow_eq_sorted (cm : String) (e ic iu : StrMap) :
    monthsToShow cm e ic iu = sortedMonths (allMonths cm e ic iu) := by
  unfold monthsToShow
  rw [if_pos]
  rw [(sortedMonths_perm (allMonths cm e ic iu)).length_eq]
  exact List.length_pos.mpr (allMonths_ne_nil cm e ic iu)

theorem addMonths_of_none (cm : String) :
    ∀ (ks s : List String), (∀ m ∈ ks, ¬ monthLe cm m = true) → addMonths cm s ks = s := by
  intro ks
  induction ks with
  | nil => intro s _; rfl
  | cons k rest ih =>
    intro s hnone
    unfold addMonths
    rw [List.foldl_cons, if_neg (hnone k (List.mem_cons_self k rest))]
    exact ih s (fun m hm => hnone m (List.mem_cons_of_mem k hm))

theorem monthsToShow_singleton (cm : String) (e ic iu : StrMap)
    (hempty : ∀ x, monthLe cm x = true →
      ¬(x ∈ mapKeys e ∨ x ∈ mapKeys ic ∨ x ∈ mapKeys iu)) :
    monthsToShow cm e ic iu = [cm] := by
  have hall : allMonths cm e ic iu = [cm] := by
    unfold allMonths
    rw [addMonths_of_none cm _ _ (fun m hm hle => hempty m hle (Or.inr (Or.inr hm))),
      addMonths_of_none cm _ _ (fun m hm hle => hempty m hle (Or.inr (Or.inl hm))),
      addMonths_of_none cm _ _ (fun m hm hle => hempty m hle (Or.inl hm))]
    rfl
  rw [monthsToShow_eq_sorted, hall]
  rfl

/-- `cashflowRows` unfolded on a company with balances and forecast. -/
theorem cashflowRows_eq (f : ForecastSummary) (b : BalanceSummary) (c u : Bool)
    (cm : String) :
    cashflowRows (some { balances := some b, forecast := some f }) c u cm =
      cashflowFold (buildIncomeMaps (f.incomesMonthly.getD [])).1
        (buildIncomeMaps (f.incomesMonthly.getD [])).2
        (buildExpenseMap (f.expensesMonthly.getD []))
        c u
        (monthsToShow cm (buildExpenseMap (f.expensesMonthly.getD []))
          (buildIncomeMaps (f.incomesMonthly.getD [])).1
          (buildIncomeMaps (f.incomesMonthly.getD [])).2)
        b.total := rfl

/-! ## Income bucket totals (strictly positive amounts only) -/

theorem certain_foldl (m : String) :
    ∀ (items : List MonthlyIncome) (acc : StrMap × StrMap),
      mapGetD ((items.foldl incomeStep acc).1) m
        = mapGetD acc.1 m
          + ((items.filter (fun i => i.month == m && decide (i.certain > 0))).map
              (fun i => i.certain)).sum := by
  intro items
  induction items with
  | nil => intro acc; simp
  | cons i rest ih =>
    intro acc
    rw [List.foldl_cons, ih]
    by_cases hpos : i.certain > 0
    · have hstep : (incomeStep acc i).1
          = mapSet acc.1 i.month (mapGetD acc.1 i.month + i.certain) := by
        simp [incomeStep, hpos]
      by_cases hm : i.month = m
      · rw [hstep, mapGetD_mapSet, if_pos hm.symm,
          List.filter_cons_of_pos (by simp [hm, hpos]), List.map_cons, List.sum_cons, hm]
        ring
      · rw [hstep, mapGetD_mapSet, if_neg (fun hh => hm hh.symm),
          List.filter_cons_of_neg (by simp [hm])]
    · have hstep : (incomeStep acc i).1 = acc.1 := by
        simp [incomeStep, hpos]
      rw [hstep, List.filter_cons_of_neg (by simp [hpos])]

theorem uncertain_foldl (m : String) :
    ∀ (items : List MonthlyIncome) (acc : StrMap × StrMap),
      mapGetD ((items.foldl incomeStep acc).2) m
        = mapGetD acc.2 m
          + ((items.filter (fun i => i.month == m && decide (i.uncertain > 0))).map
              (fun i => i.uncertain)).sum := by
  intro items
  induction items with
  | nil => intro acc; simp
  | cons i rest ih =>
    intro acc
    rw [List.foldl_cons, ih]
    by_cases hpos : i.uncertain > 0
    · have hstep : (incomeStep acc i).2
          = mapSet acc.2 i.month (mapGetD acc.2 i.month + i.uncertain) := by
        simp [incomeStep, hpos]
      by_cases hm : i.month = m
      · rw [hstep, mapGetD_mapSet, if_pos hm.symm,
          List.filter_cons_of_pos (by simp [hm, hpos]), List.map_cons, List.sum_cons, hm]
        ring
      · rw [hstep, mapGetD_mapSet, if_neg (fun hh => hm hh.symm),
          List.filter_cons_of_neg (by simp [hm])]
    · have hstep : (incomeStep acc i).2 = acc.2 := by
        simp [incomeStep, hpos]
      rw [hstep, List.filter_cons_of_neg (by simp [hpos])]

theorem certainBucket_eq (items : List MonthlyIncome) (m : String) :
    mapGetD (buildIncomeMaps items).1 m
      = ((items.filter (fun i => i.month == m && decide (i.certain > 0))).map
          (fun i => i.certain)).sum := by
  unfold buildIncomeMaps
  rw [certain_foldl]
  simp [mapGetD, mapGet]

theorem uncertainBucket_eq (items : List MonthlyIncome) (m : String) :
    mapGetD (buildIncomeMaps items).2 m
      = ((items.filter (fun i => i.month == m && decide (i.uncertain > 0))).map
          (fun i => i.uncertain)).sum := by
  unfold buildIncomeMaps
  rw [uncertain_foldl]
  simp [mapGetD, mapGet]

/-! ## Derived projection inputs and claim theorems for the projector -/

/-- The expense bucket `cashflowRows` derives from the forecast. -/
def expenseMapOf (f : ForecastSummary) : StrMap :=
  buildExpenseMap (f.expensesMonthly.getD [])

/-- The certain-income bucket `cashflowRows` derives from the forecast. -/
def incomeCertainMapOf (f : ForecastSummary) : StrMap :=
  (buildIncomeMaps (f.incomesMonthly.getD [])).1

/-- The uncertain-income bucket `cashflowRows` derives from the forecast. -/
def incomeUncertainMapOf (f : ForecastSummary) : StrMap :=
  (buildIncomeMaps (f.incomesMonthly.getD [])).2

/-- The n-th row of the projection for a company with balances and forecast. -/
def projRow (f : ForecastSummary) (bal : BalanceSummary) (c u : Bool) (cm : String)
    (n : Nat) : CashflowRow :=
  (cashflowRows (some { balances := some bal, forecast := some f }) c u cm).getD n defaultRow

theorem projRow_eq_rowAt (f : ForecastSummary) (bal : BalanceSummary) (c u : Bool)
    (cm : String) (n : Nat) :
    projRow f bal c u cm n
      = rowAt (incomeCertainMapOf f) (incomeUncertainMapOf f) (expenseMapOf f) c u
          (monthsToShow cm (expenseMapOf f) (incomeCertainMapOf f) (incomeUncertainMapOf f))
          bal.total n := rfl

theorem cashflowRows_length (f : ForecastSummary) (bal : BalanceSummary) (c u : Bool)
    (cm : String) :
    (cashflowRows (some { balances := some bal, forecast := some f }) c u cm).length
      = (monthsToShow cm (expenseMapOf f) (incomeCertainMapOf f)
          (incomeUncertainMapOf f)).length :=
  cashflowFold_length _ _ _ _ _ _ _

theorem cashflowRows_map_month (f : ForecastSummary) (bal : BalanceSummary) (c u : Bool)
    (cm : String) :
    (cashflowRows (some { balances := some bal, forecast := some f }) c u cm).map
        (fun r => r.month)
      = monthsToShow cm (expenseMapOf f) (incomeCertainMapOf f) (incomeUncertainMapOf f) :=
  cashflowFold_map_month _ _ _ _ _ _ _

theorem monthsToShow_sorted (cm : String) (e ic iu : StrMap) :
    (monthsToShow cm e ic iu).Sorted (fun a b => monthLe a b = true) := by
  rw [monthsToShow_eq_sorted]
  exact sortedMonths_sorted _

/-- C1: for every projection input and every index into the emitted row
sequence, the row's certain (resp. uncertain) income equals the certain
(resp. uncertain) bucket when the matching flag is set and 0 otherwise,
its expense equals the expense bucket, its closing balance equals opening
plus income minus expense, the first opening balance is the starting
balance, and each following opening balance is the previous closing
balance; concretely, starting balance 100000 with current-month certain
income 20000 and expense 15000 yields closing balance 105000. -/
theorem claim_C1_cashflow_row_equations :
    (∀ (f : ForecastSummary) (bal : BalanceSummary) (c u : Bool) (cm : String) (n : Nat),
      n < (cashflowRows (some { balances := some bal, forecast := some f }) c u cm).length →
        (projRow f bal c u cm n).certainIncome
            = (if c then mapGetD (incomeCertainMapOf f) (projRow f bal c u cm n).month
               else 0) ∧
          (projRow f bal c u cm n).uncertainIncome
            = (if u then mapGetD (incomeUncertainMapOf f) (projRow f bal c u cm n).month
               else 0) ∧
          (projRow f bal c u cm n).expense
            = mapGetD (expenseMapOf f) (projRow f bal c u cm n).month ∧
          (projRow f bal c u cm n).closingBalance
            = (projRow f bal c u cm n).openingBalance
              + (projRow f bal c u cm n).certainIncome
              + (projRow f bal c u cm n).uncertainIncome
              - (projRow f bal c u cm n).expense ∧
          (n = 0 → (projRow f bal c u cm n).openingBalance = bal.total) ∧
          (n + 1 <
              (cashflowRows (some { balances := some bal, forecast := some f }) c u cm).length →
            (projRow f bal c u cm (n + 1)).openingBalance
              = (projRow f bal c u cm n).closingBalance)) ∧
    (projRow
        { expensesMonthly := some [{ month := "2026-10", amount := 15000 }],
          incomesMonthly := some [{ month := "2026-10", certain := 20000, uncertain := 0 }] }
        { cash := 0, investment := 0, total := 100000 }
        true false "2026-10" 0).closingBalance = 105000 := by
  constructor
  · intro f bal c u cm n h
    rw [cashflowRows_length] at h
    have hspec := cashflowFold_spec (incomeCertainMapOf f) (incomeUncertainMapOf f)
      (expenseMapOf f) c u
      (monthsToShow cm (expenseMapOf f) (incomeCertainMapOf f) (incomeUncertainMapOf f))
      bal.total n h
    refine ⟨hspec.1, hspec.2.1, hspec.2.2.1, hspec.2.2.2.1, hspec.2.2.2.2.1, ?_⟩
    intro h2
    rw [cashflowRows_length] at h2
    exact hspec.2.2.2.2.2 h2
  · decide

/-- Witness for C1 at the spec's numeric example. -/
theorem claim_C1_witness :
    0 < (cashflowRows
        (some { balances := some { cash := 0, investment := 0, total := 100000 },
                forecast := some
                  { expensesMonthly := some [{ month := "2026-10", amount := 15000 }],
                    incomesMonthly :=
                      some [{ month := "2026-10", certain := 20000, uncertain := 0 }] } })
        true false "2026-10").length ∧
    (projRow
        { expensesMonthly := some [{ month := "2026-10", amount := 15000 }],
          incomesMonthly := some [{ month := "2026-10", certain := 20000, uncertain := 0 }] }
        { cash := 0, investment := 0, total := 100000 }
        true false "2026-10" 0).openingBalance = 100000 :=
  ⟨by decide,
    (claim_C1_cashflow_row_equations.1
      { expensesMonthly := some [{ month := "2026-10", amount := 15000 }],
        incomesMonthly := some [{ month := "2026-10", certain := 20000, uncertain := 0 }] }
      { cash := 0, investment := 0, total := 100000 }
      true false "2026-10" 0 (by decide)).2.2.2.2.1 rfl⟩

/-- C3: the projection is a pure function of its input (two runs agree),
months are emitted in ascending JS-string order, and the closing balance
at index n depends only on the starting balance and the buckets at the
first n+1 months of the month sequence. -/
theorem claim_C3_deterministic_prefix_fold :
    (∀ (inp1 inp2 : Option CompanyOverview) (c u : Bool) (cm : String),
        inp1 = inp2 → cashflowRows inp1 c u cm = cashflowRows inp2 c u cm) ∧
    (∀ (inp : Option CompanyOverview) (c u : Bool) (cm : String),
        ((cashflowRows inp c u cm).map (fun r => r.month)).Sorted
          (fun a b => monthLe a b = true)) ∧
    (∀ (ms : List String) (e ic iu e2 ic2 iu2 : StrMap) (b : Int) (c u : Bool) (n : Nat),
        (∀ m ∈ ms.take (n + 1),
          mapGetD e m = mapGetD e2 m ∧ mapGetD ic m = mapGetD ic2 m ∧
            mapGetD iu m = mapGetD iu2 m) →
        (rowAt ic iu e c u ms b n).closingBalance
          = (rowAt ic2 iu2 e2 c u ms b n).closingBalance) := by
  refine ⟨fun inp1 inp2 c u cm h => by rw [h], ?_, ?_⟩
  · intro inp c u cm
    match inp with
    | none => exact List.sorted_nil
    | some { balances := none, forecast := none } => exact List.sorted_nil
    | some { balances := none, forecast := some f } => exact List.sorted_nil
    | some { balances := some bal, forecast := none } => exact List.sorted_nil
    | some { balances := some bal, forecast := some f } =>
      rw [cashflowRows_map_month]
      exact monthsToShow_sorted cm _ _ _
  · intro ms e ic iu e2 ic2 iu2 b c u n hag
    rw [rowAt_congr c u ms e ic iu e2 ic2 iu2 b n hag]

/-- Witness for C3: changing only a later month's bucket leaves the first
closing balance unchanged. -/
theorem claim_C3_witness :
    (rowAt [] [] [("2026-01", 5)] true false ["2026-01", "2026-02"] 100 0).closingBalance
      = (rowAt [] [] [("2026-01", 5), ("2026-02", 7)] true false
          ["2026-01", "2026-02"] 100 0).closingBalance :=
  claim_C3_deterministic_prefix_fold.2.2 ["2026-01", "2026-02"]
    [("2026-01", 5)] [] [] [("2026-01", 5), ("2026-02", 7)] [] [] 100 true false 0
    (by decide)

/-- C4: the emitted month set is exactly the current month plus every
bucket key at or after it; when no qualifying bucket key exists the
output is the current month's single row; the output is never empty. -/
theorem claim_C4_month_set :
    ∀ (f : ForecastSummary) (bal : BalanceSummary) (c u : Bool) (cm : String),
      (∀ x,
        (x ∈ (cashflowRows (some { balances := some bal, forecast := some f }) c u cm).map
            (fun r => r.month))
          ↔ (x = cm ∨ (monthLe cm x = true ∧
              (x ∈ mapKeys (expenseMapOf f) ∨ x ∈ mapKeys (incomeCertainMapOf f) ∨
                x ∈ mapKeys (incomeUncertainMapOf f))))) ∧
      ((∀ x, monthLe cm x = true →
          ¬(x ∈ mapKeys (expenseMapOf f) ∨ x ∈ mapKeys (incomeCertainMapOf f) ∨
            x ∈ mapKeys (incomeUncertainMapOf f))) →
        (cashflowRows (some { balances := some bal, forecast := some f }) c u cm).map
            (fun r => r.month) = [cm]) ∧
      cashflowRows (some { balances := some bal, forecast := some f }) c u cm ≠ [] := by
  intro f bal c u cm
  refine ⟨?_, ?_, ?_⟩
  · intro x
    rw [cashflowRows_map_month, monthsToShow_eq_sorted, mem_sortedMonths, mem_allMonths]
  · intro hemp
    rw [cashflowRows_map_month]
    exact monthsToShow_singleton cm _ _ _ hemp
  · intro hnil
    have hmap := cashflowRows_map_month f bal c u cm
    rw [hnil] at hmap
    have hlen : (monthsToShow cm (expenseMapOf f) (incomeCertainMapOf f)
        (incomeUncertainMapOf f)).length = 0 := by
      rw [← hmap]
      rfl
    rw [monthsToShow_eq_sorted, (sortedMonths_perm _).length_eq] at hlen
    exact allMonths_ne_nil cm _ _ _ (List.length_eq_zero.mp hlen)

/-- Witness for C4: a company with no forecast entries projects exactly
the current month. -/
theorem claim_C4_witness :
    (cashflowRows
        (some { balances := some { cash := 0, investment := 0, total := 50 },
                forecast := some { expensesMonthly := none, incomesMonthly := none } })
        true false "2026-03").map (fun r => r.month) = ["2026-03"] :=
  (claim_C4_month_set { expensesMonthly := none, incomesMonthly := none }
      { cash := 0, investment := 0, total := 50 } true false "2026-03").2.1
    (by
      intro x hx h
      simp [expenseMapOf, incomeCertainMapOf, incomeUncertainMapOf, buildExpenseMap,
        buildIncomeMaps, mapKeys] at h)

/-- C7: the certainty flags default to certain-included, uncertain-excluded,
and for every flag setting the row sequence is the full fold from the seed
over a month list that does not depend on the flags (no per-row patching). -/
theorem claim_C7_flag_defaults_recompute :
    includeCertainIncomeDefault = true ∧
    includeUncertainIncomeDefault = false ∧
    (∀ (f : ForecastSummary) (bal : BalanceSummary) (c u : Bool) (cm : String),
        cashflowRows (some { balances := some bal, forecast := some f }) c u cm
          = cashflowFold (incomeCertainMapOf f) (incomeUncertainMapOf f) (expenseMapOf f)
              c u
              (monthsToShow cm (expenseMapOf f) (incomeCertainMapOf f)
                (incomeUncertainMapOf f))
              bal.total) ∧
    (∀ (f : ForecastSummary) (bal : BalanceSummary) (c u c2 u2 : Bool) (cm : String),
        (cashflowRows (some { balances := some bal, forecast := some f }) c u cm).map
            (fun r => r.month)
          = (cashflowRows (some { balances := some bal, forecast := some f }) c2 u2 cm).map
              (fun r => r.month)) := by
  refine ⟨rfl, rfl, fun f bal c u cm => rfl, fun f bal c u c2 u2 cm => ?_⟩
  rw [cashflowRows_map_month, cashflowRows_map_month]

/-- C8: an income entry contributes its certain (resp. uncertain) amount
only when strictly positive; otherwise the bucket is unchanged, so each
bucket value is the sum of the strictly positive amounts of its month. -/
theorem claim_C8_positive_income_only :
    (∀ (acc : StrMap × StrMap) (i : MonthlyIncome),
        (i.certain ≤ 0 → (incomeStep acc i).1 = acc.1) ∧
        (i.uncertain ≤ 0 → (incomeStep acc i).2 = acc.2) ∧
        (i.certain > 0 →
          (incomeStep acc i).1 = mapSet acc.1 i.month (mapGetD acc.1 i.month + i.certain)) ∧
        (i.uncertain > 0 →
          (incomeStep acc i).2
            = mapSet acc.2 i.month (mapGetD acc.2 i.month + i.uncertain))) ∧
    (∀ (items : List MonthlyIncome) (m : String),
        mapGetD (buildIncomeMaps items).1 m
          = ((items.filter (fun i => i.month == m && decide (i.certain > 0))).map
              (fun i => i.certain)).sum ∧
        mapGetD (buildIncomeMaps items).2 m
          = ((items.filter (fun i => i.month == m && decide (i.uncertain > 0))).map
              (fun i => i.uncertain)).sum) := by
  constructor
  · intro acc i
    refine ⟨fun h => ?_, fun h => ?_, fun h => ?_, fun h => ?_⟩
    · have hneg : ¬(i.certain > 0) := by omega
      simp [incomeStep, hneg]
    · have hneg : ¬(i.uncertain > 0) := by omega
      simp [incomeStep, hneg]
    · simp [incomeStep, h]
    · simp [incomeStep, h]
  · intro items m
    exact ⟨certainBucket_eq items m, uncertainBucket_eq items m⟩

/-- Witness for C8: a negative certain amount leaves the certain bucket
untouched. -/
theorem claim_C8_witness :
    ((-5 : Int) ≤ 0) ∧
    (incomeStep ([("2026-01", 3)], [])
        { month := "2026-02", certain := -5, uncertain := 2 }).1 = [("2026-01", 3)] :=
  ⟨by decide,
    (claim_C8_positive_income_only.1 ([("2026-01", 3)], [])
      { month := "2026-02", certain := -5, uncertain := 2 }).1 (by decide)⟩

/-- C9: a missing company, missing balance summary or missing forecast
object yields the empty row list. -/
theorem claim_C9_missing_data_empty :
    (∀ (c u : Bool) (cm : String), cashflowRows none c u cm = []) ∧
    (∀ (company : CompanyOverview) (c u : Bool) (cm : String),
        company.balances = none ∨ company.forecast = none →
        cashflowRows (some company) c u cm = []) := by
  refine ⟨fun c u cm => rfl, ?_⟩
  rintro ⟨bopt, fopt⟩ c u cm h
  rcases h with h | h
  · have hb : bopt = none := h
    subst hb
    cases fopt <;> rfl
  · have hf : fopt = none := h
    subst hf
    cases bopt <;> rfl

/-- Witness for C9. -/
theorem claim_C9_witness :
    cashflowRows (some { balances := none, forecast := none }) true false "2026-01" = [] :=
  claim_C9_missing_data_empty.2 { balances := none, forecast := none } true false
    "2026-01" (Or.inl rfl)

/-! ## API client response handling (frontend/src/services/apiClient.ts)

Embeds the part of `request` that follows `await fetch`: the ok check,
the 204 short-circuit, the content-type dispatch and the web text
fallback.  `Response.ok` is status in [200, 300). -/

/-- Does the character list start with the pattern? -/
def startsWithChars : List Char → List Char → Bool
  | [], _ => true
  | _ :: _, [] => false
  | p :: ps, c :: cs => p == c && startsWithChars ps cs

/-- Does the character list contain the pattern as a contiguous run?
Models JS `String.prototype.includes`. -/
def hasSubChars (pat : List Char) : List Char → Bool
  | [] => startsWithChars pat []
  | c :: cs => startsWithChars pat (c :: cs) || hasSubChars pat cs

/-- `contentType.includes('application/json')`. -/
def ctIncludesJson (ct : String) : Bool :=
  hasSubChars "application/json".data ct.data

/-- The response fields `request` reads. -/
structure FetchResponse where
  status : Nat
  bodyText : String
  contentType : String
deriving DecidableEq

/-- `response.ok`. -/
def responseOk (r : FetchResponse) : Bool :=
  decide (200 ≤ r.status) && decide (r.status < 300)

/-- What `request` can throw after the fetch resolves. -/
inductive ThrownError where
  | httpError (message : String) (status : Nat) (body : String)
  | unsupportedFormat (message : String)
deriving DecidableEq

/-- What `request` can resolve with: a JSON-parsed body or, on web, the
raw text body. -/
inductive ResponseBody where
  | jsonBody (raw : String)
  | textBody (raw : String)
deriving DecidableEq

/-- The tail of `request` (apiClient.ts lines 56-75): throw `HttpError`
with the status and the raw body text when not ok; return `undefined`
on 204; JSON-parse when the content type includes `application/json`;
return text on web; otherwise throw. -/
def handleResponse (platformIsWeb : Bool) (r : FetchResponse) :
    Except ThrownError (Option ResponseBody) :=
  if !responseOk r then
    .error (.httpError ("Request failed: " ++ toString r.status) r.status r.bodyText)
  else if r.status == 204 then
    .ok none
  else if ctIncludesJson r.contentType then
    .ok (some (.jsonBody r.bodyText))
  else if platformIsWeb then
    .ok (some (.textBody r.bodyText))
  else
    .error (.unsupportedFormat "Unsupported response format")

/-- C10: a non-OK response makes `request` throw an `HttpError` carrying
exactly the response status and raw body text (never returning a value),
and a 204 response resolves to `undefined` without touching the body. -/
theorem claim_C10_http_error_and_204 :
    ∀ (p : Bool) (r : FetchResponse),
      (¬(200 ≤ r.status ∧ r.status < 300) →
        handleResponse p r
          = .error (.httpError ("Request failed: " ++ toString r.status) r.status
              r.bodyText)) ∧
      (r.status = 204 → handleResponse p r = .ok none) := by
  intro p r
  constructor
  · intro h
    have hok : responseOk r = false := by
      unfold responseOk
      rcases Decidable.not_and_iff_or_not.mp h with h1 | h1 <;>
        simp [h1]
    unfold handleResponse
    rw [hok]
    rfl
  · intro h
    have hok : responseOk r = true := by
      unfold responseOk
      rw [h]
      rfl
    unfold handleResponse
    rw [hok, h]
    rfl

/-- Witness for C10 at a 404 and at a 204. -/
theorem claim_C10_witness :
    handleResponse true { status := 404, bodyText := "not found", contentType := "" }
      = .error (.httpError ("Request failed: " ++ toString 404) 404 "not found") ∧
    handleResponse false { status := 204, bodyText := "", contentType := "" } = .ok none :=
  ⟨(claim_C10_http_error_and_204 true
      { status := 404, bodyText := "not found", contentType := "" }).1 (by decide),
   (claim_C10_http_error_and_204 false
      { status := 204, bodyText := "", contentType := "" }).2 rfl⟩

/-! ## Revenue summary rows (dashboard lines 297-348)

`revenueRows` walks `revenueSummary.nodes` depth-first, emitting one row
per visited node and descending into children only when the node's key is
in `expandedKeys`.  The grand-total row of the table (dashboard lines
1055-1095) reads `revenueSummary.totals` directly. -/

/-- Scalar fields of a `RevenueSummaryNode`. -/
structure RNodeInfo where
  label : String
  monthly : List Int
  total : Int
  forecastMonthly : Option (List Int)
  forecastTotal : Option Int
  forecastCertainMonthly : Option (List Int)
  forecastUncertainMonthly : Option (List Int)
  forecastCertainTotal : Option Int
  forecastUncertainTotal : Option Int
deriving DecidableEq

/-- A `RevenueSummaryNode`: scalar fields plus children. -/
inductive RNode where
  | mk (info : RNodeInfo) (children : List RNode)

def infoDecEq : DecidableEq RNodeInfo := inferInstance

mutual

def RNode.decEq : (a b : RNode) → Decidable (a = b)
  | .mk i1 c1, .mk i2 c2 =>
    match infoDecEq i1 i2 with
    | isFalse h => isFalse (fun hh => by injection hh with h1 h2; exact h h1)
    | isTrue h1 =>
      match RNode.decEqList c1 c2 with
      | isFalse h => isFalse (fun hh => by injection hh with h1 h2; exact h h2)
      | isTrue h2 => isTrue (by rw [h1, h2])

def RNode.decEqList : (a b : List RNode) → Decidable (a = b)
  | [], [] => isTrue rfl
  | [], _ :: _ => isFalse (fun hh => List.noConfusion hh)
  | _ :: _, [] => isFalse (fun hh => List.noConfusion hh)
  | a :: as, b :: bs =>
    match RNode.decEq a b with
    | isFalse h => isFalse (fun hh => by injection hh with h1 h2; exact h h1)
    | isTrue h1 =>
      match RNode.decEqList as bs with
      | isFalse h => isFalse (fun hh => by injection hh with h1 h2; exact h h2)
      | isTrue h2 => isTrue (by rw [h1, h2])

end

instance : DecidableEq RNode := RNode.decEq

/-- The `totals` object of a `RevenueSummaryResponse`. -/
structure RevenueSummaryTotals where
  monthly : List Int
  total : Int
  forecastMonthly : Option (List Int)
  forecastTotal : Option Int
  forecastCertainMonthly : Option (List Int)
  forecastUncertainMonthly : Option (List Int)
  forecastCertainTotal : Option Int
  forecastUncertainTotal : Option Int
deriving DecidableEq

/-- The parts of a `RevenueSummaryResponse` the table reads. -/
structure RevenueSummaryResponse where
  year : Int
  totals : RevenueSummaryTotals
  nodes : List RNode
deriving DecidableEq

/-- `makeNodeKey` (dashboard lines 236-238). -/
def makeNodeKey (parentKey : Option String) (label : String) : String :=
  match parentKey with
  | some p => p ++ ">" ++ label
  | none => label

/-- One row pushed by the `traverse` closure of `revenueRows`. -/
structure RevRow where
  key : String
  label : String
  depth : Nat
  monthly : List Int
  total : Int
  forecastMonthly : Option (List Int)
  forecastTotal : Option Int
  forecastCertainMonthly : Option (List Int)
  forecastUncertainMonthly : Option (List Int)
  forecastCertainTotal : Option Int
  forecastUncertainTotal : Option Int
  hasChildren : Bool
  expanded : Bool
deriving DecidableEq

/-- The row pushed for one node. -/
def rowOfNode (info : RNodeInfo) (key : String) (depth : Nat)
    (hasChildren expanded : Bool) : RevRow :=
  { key := key
    label := info.label
    depth := depth
    monthly := info.monthly
    total := info.total
    forecastMonthly := info.forecastMonthly
    forecastTotal := info.forecastTotal
    forecastCertainMonthly := info.forecastCertainMonthly
    forecastUncertainMonthly := info.forecastUncertainMonthly
    forecastCertainTotal := info.forecastCertainTotal
    forecastUncertainTotal := info.forecastUncertainTotal
    hasChildren := hasChildren
    expanded := expanded }

/-- The recursive `traverse(nodes, parentKey, depth)` closure: push the
node's row, then the expanded children's rows, then the next siblings. -/
def traverseNodes (E : List String) : Option String → Nat → List RNode → List RevRow
  | _, _, [] => []
  | pk, depth, RNode.mk info children :: rest =>
    let key := makeNodeKey pk info.label
    let hasChildren := !children.isEmpty
    let expanded := decide (key ∈ E)
    rowOfNode info key depth hasChildren expanded ::
      ((if hasChildren && expanded then traverseNodes E (some key) (depth + 1) children
        else []) ++ traverseNodes E pk depth rest)
termination_by pk depth l => sizeOf l

/-- `revenueRows`: empty without a summary, else the traversal of the
summary's nodes from the root. -/
def revenueRows (s : Option RevenueSummaryResponse) (E : List String) : List RevRow :=
  match s with
  | none => []
  | some summary => traverseNodes E none 0 summary.nodes

/-- The grand-total table row (dashboard lines 1055-1095): it reads
`revenueSummary.totals` directly, whatever the expansion state is. -/
def grandTotalRow (s : RevenueSummaryResponse) (E : List String) : RevenueSummaryTotals :=
  s.totals

/-- A row with its presentation-only `expanded` flag cleared. -/
def rowValue (r : RevRow) : RevRow :=
  { r with expanded := false }

theorem rowValue_rowOfNode (info : RNodeInfo) (key : String) (d : Nat) (hc e : Bool) :
    rowValue (rowOfNode info key d hc e) = rowOfNode info key d hc false := rfl

theorem traverseNodes_nil (E : List String) (pk : Option String) (d : Nat) :
    traverseNodes E pk d [] = [] := by
  rw [traverseNodes]

theorem traverseNodes_cons (E : List String) (pk : Option String) (d : Nat)
    (info : RNodeInfo) (children rest : List RNode) :
    traverseNodes E pk d (RNode.mk info children :: rest)
      = rowOfNode info (makeNodeKey pk info.label) d (!children.isEmpty)
          (decide (makeNodeKey pk info.label ∈ E)) ::
        ((if (!children.isEmpty) && decide (makeNodeKey pk info.label ∈ E) then
            traverseNodes E (some (makeNodeKey pk info.label)) (d + 1) children
          else []) ++ traverseNodes E pk d rest) := by
  rw [traverseNodes]

/-- Expanding more keys only inserts rows: the value parts of the rows
under `E` form a sublist of the value parts under any superset of `E`. -/
theorem traverseNodes_mono (E E2 : List String) (hsub : E ⊆ E2) :
    ∀ (n : Nat) (l : List RNode), sizeOf l ≤ n → ∀ (pk : Option String) (d : Nat),
      ((traverseNodes E pk d l).map rowValue).Sublist
        ((traverseNodes E2 pk d l).map rowValue) := by
  intro n
  induction n with
  | zero =>
    intro l hl pk d
    match l with
    | [] => simp [traverseNodes_nil]
    | x :: xs =>
      exfalso
      simp only [List.cons.sizeOf_spec] at hl
      omega
  | succ k ih =>
    intro l hl pk d
    match l with
    | [] => simp [traverseNodes_nil]
    | RNode.mk info children :: rest =>
      have hsz : sizeOf children ≤ k ∧ sizeOf rest ≤ k := by
        simp only [List.cons.sizeOf_spec, RNode.mk.sizeOf_spec] at hl
        omega
      rw [traverseNodes_cons, traverseNodes_cons]
      simp only [List.map_cons, List.map_append, rowValue_rowOfNode]
      refine List.Sublist.cons₂ _ ?_
      have hrest := ih rest hsz.2 pk d
      by_cases hexp : makeNodeKey pk info.label ∈ E
      · have hexp2 : makeNodeKey pk info.label ∈ E2 := hsub hexp
        rw [decide_eq_true hexp, decide_eq_true hexp2]
        by_cases hc : children.isEmpty
        · simp only [hc, Bool.not_true, Bool.false_and, if_neg (by simp : ¬False = True)]
          simpa using hrest
        · have h1 : (!children.isEmpty) = true := by simp [hc]
          rw [h1]
          simp only [Bool.and_self, if_pos rfl, List.map_append]
          exact List.Sublist.append (ih children hsz.1 (some _) (d + 1)) hrest
      · rw [decide_eq_false hexp]
        simp only [Bool.and_false, Bool.false_eq_true, if_false, List.nil_append]
        refine List.Sublist.trans hrest ?_
        exact List.sublist_append_right _ _

/-- C6: expand/collapse state is presentation-only: with more (or fewer)
expanded keys the rendered rows, stripped of the presentation `expanded`
flag, only gain or lose descendant rows while every common row keeps
identical monthly, total and forecast values; the grand-total row does
not depend on the expansion state at all. -/
theorem claim_C6_expansion_frame :
    (∀ (s : Option RevenueSummaryResponse) (E E2 : List String), E ⊆ E2 →
        ((revenueRows s E).map rowValue).Sublist ((revenueRows s E2).map rowValue)) ∧
    (∀ (s : Option RevenueSummaryResponse) (E E2 : List String),
        ((revenueRows s (E.inter E2)).map rowValue).Sublist
            ((revenueRows s E).map rowValue) ∧
        ((revenueRows s (E.inter E2)).map rowValue).Sublist
            ((revenueRows s E2).map rowValue)) ∧
    (∀ (s : RevenueSummaryResponse) (E E2 : List String),
        grandTotalRow s E = grandTotalRow s E2) := by
  have hmono : ∀ (E E2 : List String), E ⊆ E2 → ∀ (s : Option RevenueSummaryResponse),
      ((revenueRows s E).map rowValue).Sublist ((revenueRows s E2).map rowValue) := by
    intro E E2 hsub s
    match s with
    | none => exact List.Sublist.refl []
    | some summary =>
      exact traverseNodes_mono E E2 hsub (sizeOf summary.nodes) summary.nodes le_rfl none 0
  refine ⟨fun s E E2 h => hmono E E2 h s, fun s E E2 => ⟨?_, ?_⟩, fun s E E2 => rfl⟩
  · exact hmono _ _ (List.inter_subset_left) s
  · exact hmono _ _ (List.inter_subset_right) s

/-- Witness for C6: expanding the root of a two-level tree only appends
the child's row. -/
theorem claim_C6_witness :
    (([] : List String) ⊆ ["A"]) ∧
    ((revenueRows
        (some { year := 2026,
                totals := { monthly := [], total := 7, forecastMonthly := none,
                            forecastTotal := none, forecastCertainMonthly := none,
                            forecastUncertainMonthly := none, forecastCertainTotal := none,
                            forecastUncertainTotal := none },
                nodes := [RNode.mk
                  { label := "A", monthly := [7], total := 7, forecastMonthly := none,
                    forecastTotal := none, forecastCertainMonthly := none,
                    forecastUncertainMonthly := none, forecastCertainTotal := none,
                    forecastUncertainTotal := none }
                  [RNode.mk
                    { label := "B", monthly := [7], total := 7, forecastMonthly := none,
                      forecastTotal := none, forecastCertainMonthly := none,
                      forecastUncertainMonthly := none, forecastCertainTotal := none,
                      forecastUncertainTotal := none } []]] }) []).map rowValue).Sublist
      ((revenueRows
        (some { year := 2026,
                totals := { monthly := [], total := 7, forecastMonthly := none,
                            forecastTotal := none, forecastCertainMonthly := none,
                            forecastUncertainMonthly := none, forecastCertainTotal := none,
                            forecastUncertainTotal := none },
                nodes := [RNode.mk
                  { label := "A", monthly := [7], total := 7, forecastMonthly := none,
                    forecastTotal := none, forecastCertainMonthly := none,
                    forecastUncertainMonthly := none, forecastCertainTotal := none,
                    forecastUncertainTotal := none }
                  [RNode.mk
                    { label := "B", monthly := [7], total := 7, forecastMonthly := none,
                      forecastTotal := none, forecastCertainMonthly := none,
                      forecastUncertainMonthly := none, forecastCertainTotal := none,
                      forecastUncertainTotal := none } []]] }) ["A"]).map rowValue) :=
  ⟨by simp,
    claim_C6_expansion_frame.1
      (some { year := 2026,
              totals := { monthly := [], total := 7, forecastMonthly := none,
                          forecastTotal := none, forecastCertainMonthly := none,
                          forecastUncertainMonthly := none, forecastCertainTotal := none,
                          forecastUncertainTotal := none },
              nodes := [RNode.mk
                { label := "A", monthly := [7], total := 7, forecastMonthly := none,
                  forecastTotal := none, forecastCertainMonthly := none,
                  forecastUncertainMonthly := none, forecastCertainTotal := none,
                  forecastUncertainTotal := none }
                [RNode.mk
                  { label := "B", monthly := [7], total := 7, forecastMonthly := none,
                    forecastTotal := none, forecastCertainMonthly := none,
                    forecastUncertainMonthly := none, forecastCertainTotal := none,
                    forecastUncertainTotal := none } []]] })
      [] ["A"] (by simp)⟩

/-! ## Import reconciliation confirm (spec 4.3)

The confirm endpoint is backend code that is not under src/; it is
modelled from the specification.  The caller (`executeConfirm` in
frontend/app/(app)/ai-chat/index.tsx) is embedded from the source. -/

/-- Modelled from the spec: a committed record reduced to the natural-key
fields of spec 4.3 step 1 (company, record kind, occurrence/target date,
category path, description/account label) plus its amount. -/
structure StoredRecord where
  recordType : String
  companyId : String
  dateKey : String
  category : String
  description : String
  amount : Int
deriving DecidableEq

/-- Modelled from the spec: the natural key of a record (spec 4.3 step 1). -/
def naturalKey (r : StoredRecord) : String × String × String × String × String :=
  (r.recordType, r.companyId, r.dateKey, r.category, r.description)

/-- Per-record operation of a confirm action. -/
inductive ConfirmOp where
  | approve
  | reject
deriving DecidableEq

/-- One action of a confirm call (spec 4.3 contract - confirm). -/
structure ConfirmAction where
  record : StoredRecord
  operation : ConfirmOp
  overwrite : Bool
deriving DecidableEq

/-- The conflict result body (spec 6: conflict response fields). -/
structure ConflictInfo where
  recordType : String
  companyId : String
  dateKey : String
  category : String
  description : String
deriving DecidableEq

/-- The conflict result describing a stored record. -/
def conflictOf (r : StoredRecord) : ConflictInfo :=
  { recordType := r.recordType
    companyId := r.companyId
    dateKey := r.dateKey
    category := r.category
    description := r.description }

/-- Modelled from the spec: look up a committed record sharing the
natural key (spec 4.3 step 2). -/
def findConflict (store : List StoredRecord) (r : StoredRecord) : Option StoredRecord :=
  store.find? (fun s => decide (naturalKey s = naturalKey r))

/-- Modelled from the spec: replace the record sharing the natural key
(overwrite commit, spec 4.3 step 3). -/
def replaceByKey (store : List StoredRecord) (r : StoredRecord) : List StoredRecord :=
  store.map (fun s => if naturalKey s = naturalKey r then r else s)

/-- Modelled from the spec: process the actions of one confirm call in
order (spec 4.3 steps 1-5): reject actions only count; an approve action
commits (insert or, with overwrite, replace) unless a record with the
same natural key exists and overwrite is false, in which case the whole
call aborts with a conflict result describing the conflicting record. -/
def confirmGo : List StoredRecord → List ConfirmAction → Nat → Nat →
    Except ConflictInfo (List StoredRecord × Nat × Nat)
  | store, [], approved, rejected => .ok (store, approved, rejected)
  | store, act :: rest, approved, rejected =>
    match act.operation with
    | .reject => confirmGo store rest approved (rejected + 1)
    | .approve =>
      match findConflict store act.record, act.overwrite with
      | some c, false => .error (conflictOf c)
      | some _, true => confirmGo (replaceByKey store act.record) rest (approved + 1) rejected
      | none, _ => confirmGo (store ++ [act.record]) rest (approved + 1) rejected

/-- Modelled from the spec: one confirm call is one transaction (spec 5):
on conflict the store is left as it was and the conflict result is
returned with HTTP 409; on success the `{approvedCount, rejectedCount}`
body and the updated store are returned (spec 4.3, spec 6). -/
def confirmCall (store : List StoredRecord) (actions : List ConfirmAction) :
    Except ConflictInfo (Nat × Nat) × List StoredRecord :=
  match confirmGo store actions 0 0 with
  | .ok (store2, approved, rejected) => (.ok (approved, rejected), store2)
  | .error c => (.error c, store)

/-- The HTTP status of the conflict response (spec 6, and the status the
frontend 409 handler tests for). -/
def conflictStatus : Nat := 409

/-- A record of the import preview held in the finance store; the payload
type is opaque to the confirm flow. -/
structure PreviewRecord (P : Type) where
  id : String
  recordType : String
  payload : P

/-- One action of the confirm request body built by `executeConfirm`. -/
structure RequestAction (P : Type) where
  recordType : String
  operation : ConfirmOp
  payload : P
  overwrite : Bool

/-- `executeConfirm` body construction (ai-chat lines 149-157):
`importPreview.map(record => ({ recordType, operation: approve, payload,
overwrite: forceOverwrite }))`. -/
def confirmRequestBody {P : Type} (importPreview : List (PreviewRecord P))
    (forceOverwrite : Bool) : List (RequestAction P) :=
  importPreview.map (fun r =>
    { recordType := r.recordType
      operation := ConfirmOp.approve
      payload := r.payload
      overwrite := forceOverwrite })

/-- The request `executeConfirm` posts (ai-chat lines 158-161): the
confirm path of the current job plus the body. -/
def confirmRequest {P : Type} (currentJobId : String)
    (importPreview : List (PreviewRecord P)) (forceOverwrite : Bool) :
    String × List (RequestAction P) :=
  ("/api/v1/import-jobs/" ++ currentJobId ++ "/confirm",
    confirmRequestBody importPreview forceOverwrite)

/-- The 409 handler of `executeConfirm` (ai-chat lines 170-199): accepting
the overwrite prompt re-invokes `executeConfirm(true)`; the job id and the
preview are unchanged because both are reset only after a success. -/
def overwriteRetryRequest {P : Type} (currentJobId : String)
    (importPreview : List (PreviewRecord P)) : String × List (RequestAction P) :=
  confirmRequest currentJobId importPreview true

/-- Number of approve actions in a confirm call. -/
def approveCount (actions : List ConfirmAction) : Nat :=
  (actions.filter (fun act => decide (act.operation = ConfirmOp.approve))).length

/-- Number of reject actions in a confirm call. -/
def rejectCount (actions : List ConfirmAction) : Nat :=
  (actions.filter (fun act => decide (act.operation = ConfirmOp.reject))).length

theorem confirmGo_error_cause :
    ∀ (actions : List ConfirmAction) (store : List StoredRecord) (a r : Nat)
      (c : ConflictInfo),
      confirmGo store actions a r = .error c →
      ∃ act ∈ actions, act.operation = ConfirmOp.approve ∧ act.overwrite = false := by
  intro actions
  induction actions with
  | nil => intro store a r c h; simp [confirmGo] at h
  | cons act rest ih =>
    intro store a r c h
    cases hop : act.operation with
    | reject =>
      rw [confirmGo, hop] at h
      rcases ih store a (r + 1) c h with ⟨act2, hmem, hprop⟩
      exact ⟨act2, List.mem_cons_of_mem act hmem, hprop⟩
    | approve =>
      rw [confirmGo, hop] at h
      cases hfc : findConflict store act.record with
      | some c2 =>
        cases how : act.overwrite with
        | false => exact ⟨act, List.mem_cons_self act rest, hop, how⟩
        | true =>
          rw [hfc, how] at h
          rcases ih (replaceByKey store act.record) (a + 1) r c h with ⟨act2, hmem, hprop⟩
          exact ⟨act2, List.mem_cons_of_mem act hmem, hprop⟩
      | none =>
        rw [hfc] at h
        rcases ih (store ++ [act.record]) (a + 1) r c h with ⟨act2, hmem, hprop⟩
        exact ⟨act2, List.mem_cons_of_mem act hmem, hprop⟩

theorem confirmGo_ok_counts :
    ∀ (actions : List ConfirmAction) (store : List StoredRecord) (a r : Nat)
      (store2 : List StoredRecord) (a2 r2 : Nat),
      confirmGo store actions a r = .ok (store2, a2, r2) →
      a2 = a + approveCount actions ∧ r2 = r + rejectCount actions := by
  intro actions
  induction actions with
  | nil =>
    intro store a r store2 a2 r2 h
    rw [confirmGo] at h
    injection h with h2
    injection h2 with hs h3
    injection h3 with ha hr
    subst ha
    subst hr
    simp [approveCount, rejectCount]
  | cons act rest ih =>
    intro store a r store2 a2 r2 h
    have hcount : approveCount (act :: rest)
        = (if act.operation = ConfirmOp.approve then 1 else 0) + approveCount rest := by
      unfold approveCount
      by_cases hop : act.operation = ConfirmOp.approve
      · rw [List.filter_cons_of_pos (by simp [hop]), if_pos hop]
        simp [Nat.add_comm]
      · rw [List.filter_cons_of_neg (by simp [hop]), if_neg hop]
        simp
    have hrcount : rejectCount (act :: rest)
        = (if act.operation = ConfirmOp.reject then 1 else 0) + rejectCount rest := by
      unfold rejectCount
      by_cases hop : act.operation = ConfirmOp.reject
      · rw [List.filter_cons_of_pos (by simp [hop]), if_pos hop]
        simp [Nat.add_comm]
      · rw [List.filter_cons_of_neg (by simp [hop]), if_neg hop]
        simp
    cases hop : act.operation with
    | reject =>
      rw [confirmGo, hop] at h
      have := ih store a (r + 1) store2 a2 r2 h
      rw [hcount, hrcount, hop]
      simp only [reduceCtorEq, reduceIte]
      omega
    | approve =>
      rw [confirmGo, hop] at h
      cases hfc : findConflict store act.record with
      | some c2 =>
        cases how : act.overwrite with
        | false =>
          rw [hfc, how] at h
          exact absurd h (by simp)
        | true =>
          rw [hfc, how] at h
          have := ih (replaceByKey store act.record) (a + 1) r store2 a2 r2 h
          rw [hcount, hrcount, hop]
          simp only [reduceCtorEq, reduceIte]
          omega
      | none =>
        rw [hfc] at h
        have := ih (store ++ [act.record]) (a + 1) r store2 a2 r2 h
        rw [hcount, hrcount, hop]
        simp only [reduceCtorEq, reduceIte]
        omega

theorem confirmGo_all_overwrite_ok :
    ∀ (actions : List ConfirmAction) (store : List StoredRecord) (a r : Nat),
      (∀ act ∈ actions, act.overwrite = true) →
      ∃ res, confirmGo store actions a r = .ok res := by
  intro actions
  induction actions with
  | nil => intro store a r hall; exact ⟨(store, a, r), rfl⟩
  | cons act rest ih =>
    intro store a r hall
    have hrest : ∀ act2 ∈ rest, act2.overwrite = true :=
      fun act2 hmem => hall act2 (List.mem_cons_of_mem act hmem)
    cases hop : act.operation with
    | reject =>
      rcases ih store a (r + 1) hrest with ⟨res, hres⟩
      exact ⟨res, by rw [confirmGo, hop]; exact hres⟩
    | approve =>
      have how : act.overwrite = true := hall act (List.mem_cons_self act rest)
      cases hfc : findConflict store act.record with
      | some c2 =>
        rcases ih (replaceByKey store act.record) (a + 1) r hrest with ⟨res, hres⟩
        exact ⟨res, by rw [confirmGo, hop, hfc, how]; exact hres⟩
      | none =>
        rcases ih (store ++ [act.record]) (a + 1) r hrest with ⟨res, hres⟩
        exact ⟨res, by rw [confirmGo, hop, hfc]; exact hres⟩

/-- C5: a conflicting confirm without overwrite aborts the whole call with
a 409 conflict result and commits nothing (the store is unchanged, and
the cause is an approve action without overwrite); a successful call
reports exact approve/reject counts; a call whose actions all carry
overwrite = true never conflicts; and the accepted overwrite prompt
re-issues the confirm for the same job with the same candidate set,
every action having operation approve and overwrite = true. -/
theorem claim_C5_all_or_nothing_confirm :
    conflictStatus = 409 ∧
    (∀ (store : List StoredRecord) (actions : List ConfirmAction) (c : ConflictInfo),
        (confirmCall store actions).1 = .error c →
          (confirmCall store actions).2 = store ∧
          ∃ act ∈ actions, act.operation = ConfirmOp.approve ∧ act.overwrite = false) ∧
    (∀ (store : List StoredRecord) (actions : List ConfirmAction) (a r : Nat),
        (confirmCall store actions).1 = .ok (a, r) →
          a = approveCount actions ∧ r = rejectCount actions) ∧
    (∀ (store : List StoredRecord) (actions : List ConfirmAction),
        (∀ act ∈ actions, act.overwrite = true) →
          ∃ a r, (confirmCall store actions).1 = .ok (a, r)) ∧
    (∀ (P : Type) (jobId : String) (preview : List (PreviewRecord P)),
        overwriteRetryRequest jobId preview = confirmRequest jobId preview true ∧
        (∀ act ∈ (overwriteRetryRequest jobId preview).2,
            act.operation = ConfirmOp.approve ∧ act.overwrite = true) ∧
        ((overwriteRetryRequest jobId preview).2.map
              (fun act => (act.recordType, act.payload))
            = preview.map (fun rec => (rec.recordType, rec.payload))) ∧
        (overwriteRetryRequest jobId preview).1
            = "/api/v1/import-jobs/" ++ jobId ++ "/confirm") := by
  refine ⟨rfl, ?_, ?_, ?_, ?_⟩
  · intro store actions c h
    cases hgo : confirmGo store actions 0 0 with
    | ok v =>
      have h2 : confirmCall store actions = (.ok (v.2.1, v.2.2), v.1) := by
        unfold confirmCall
        rw [hgo]
      rw [h2] at h
      exact absurd h (by simp)
    | error c2 =>
      have h2 : confirmCall store actions = (.error c2, store) := by
        unfold confirmCall
        rw [hgo]
      refine ⟨by rw [h2], ?_⟩
      exact confirmGo_error_cause actions store 0 0 c2 hgo
  · intro store actions a r h
    cases hgo : confirmGo store actions 0 0 with
    | ok v =>
      have h2 : confirmCall store actions = (.ok (v.2.1, v.2.2), v.1) := by
        unfold confirmCall
        rw [hgo]
      rw [h2] at h
      injection h with h3
      injection h3 with ha hr
      have hv : confirmGo store actions 0 0 = .ok (v.1, v.2.1, v.2.2) := by
        rw [hgo]
      have := confirmGo_ok_counts actions store 0 0 v.1 v.2.1 v.2.2 hv
      omega
    | error c2 =>
      have h2 : confirmCall store actions = (.error c2, store) := by
        unfold confirmCall
        rw [hgo]
      rw [h2] at h
      exact absurd h (by simp)
  · intro store actions hall
    rcases confirmGo_all_overwrite_ok actions store 0 0 hall with ⟨res, hres⟩
    refine ⟨res.2.1, res.2.2, ?_⟩
    unfold confirmCall
    rw [hres]
  · intro P jobId preview
    refine ⟨rfl, ?_, ?_, rfl⟩
    · intro act hmem
      rcases List.mem_map.mp hmem with ⟨rec, hrec, hact⟩
      rw [← hact]
      exact ⟨rfl, rfl⟩
    · unfold overwriteRetryRequest confirmRequest confirmRequestBody
      rw [List.map_map]
      rfl

/-- Witness for C5: one approve action colliding on the natural key
without overwrite leaves the store unchanged. -/
theorem claim_C5_witness :
    (confirmCall
        [{ recordType := "revenue", companyId := "c1", dateKey := "2026-01-01",
           category := "A/B", description := "rent", amount := 100 }]
        [{ record := { recordType := "revenue", companyId := "c1",
                       dateKey := "2026-01-01", category := "A/B",
                       description := "rent", amount := 250 },
           operation := ConfirmOp.approve, overwrite := false }]).2
      = [{ recordType := "revenue", companyId := "c1", dateKey := "2026-01-01",
           category := "A/B", description := "rent", amount := 100 }] ∧
    ∃ act ∈ [({ record := { recordType := "revenue", companyId := "c1",
                            dateKey := "2026-01-01", category := "A/B",
                            description := "rent", amount := 250 },
                operation := ConfirmOp.approve, overwrite := false } : ConfirmAction)],
      act.operation = ConfirmOp.approve ∧ act.overwrite = false :=
  claim_C5_all_or_nothing_confirm.2.1
    [{ recordType := "revenue", companyId := "c1", dateKey := "2026-01-01",
       category := "A/B", description := "rent", amount := 100 }]
    [{ record := { recordType := "revenue", companyId := "c1",
                   dateKey := "2026-01-01", category := "A/B",
                   description := "rent", amount := 250 },
       operation := ConfirmOp.approve, overwrite := false }]
    (conflictOf { recordType := "revenue", companyId := "c1", dateKey := "2026-01-01",
                  category := "A/B", description := "rent", amount := 100 })
    rfl

/-! ## Category tree aggregator (spec 4.1; backend not under src/)

The Aggregator is backend code that is not under src/; the roll-up and
pruning steps are modelled from the specification. -/

/-- Modelled from the spec: a 12-element monthly array of integer
minor-unit amounts. -/
abbrev MonthlyArr := Fin 12 → Int

/-- The all-zero monthly array. -/
def zeroMonthly : MonthlyArr := fun _ => 0

/-- Element-wise addition of monthly arrays. -/
def addMonthly (a b : MonthlyArr) : MonthlyArr := fun i => a i + b i

/-- Element-wise sum of a list of monthly arrays. -/
def sumMonthly (l : List MonthlyArr) : MonthlyArr := l.foldr addMonthly zeroMonthly

/-- Zero in every month (executable check used by pruning). -/
def monthlyAll0 (m : MonthlyArr) : Bool := (List.finRange 12).all (fun i => m i == 0)

/-- Modelled from the spec: a raw category subtree carrying the per-leaf
monthly buckets (actuals plus the two forecast certainties) built in spec
4.1 steps 1-2. -/
inductive RawCategory where
  | mk (label : String) (actual fCertain fUncertain : MonthlyArr)
      (children : List RawCategory)

/-- A node of the returned roll-up tree (RevenueSummaryNode shape). -/
inductive SummaryTree where
  | mk (label : String) (monthly fCertain fUncertain : MonthlyArr)
      (children : List SummaryTree)

def SummaryTree.label : SummaryTree → String
  | .mk l _ _ _ _ => l

def SummaryTree.monthly : SummaryTree → MonthlyArr
  | .mk _ m _ _ _ => m

def SummaryTree.fCertain : SummaryTree → MonthlyArr
  | .mk _ _ fc _ _ => fc

def SummaryTree.fUncertain : SummaryTree → MonthlyArr
  | .mk _ _ _ fu _ => fu

def SummaryTree.children : SummaryTree → List SummaryTree
  | .mk _ _ _ _ cs => cs

/-- Modelled from the spec (4.1 step 3): a leaf keeps its buckets; every
ancestor's arrays are the element-wise sums of its children's arrays. -/
def aggregateList : List RawCategory → List SummaryTree
  | [] => []
  | RawCategory.mk label a fc fu children :: rest =>
    (if children.isEmpty then SummaryTree.mk label a fc fu []
     else
       SummaryTree.mk label
         (sumMonthly ((aggregateList children).map SummaryTree.monthly))
         (sumMonthly ((aggregateList children).map SummaryTree.fCertain))
         (sumMonthly ((aggregateList children).map SummaryTree.fUncertain))
         (aggregateList children)) ::
      aggregateList rest
termination_by l => sizeOf l

/-- Modelled from the spec (4.1 step 4): nodes with zero actual and zero
forecast activity across the full year are pruned from the returned tree. -/
def pruneList : List SummaryTree → List SummaryTree
  | [] => []
  | SummaryTree.mk label m fc fu children :: rest =>
    (if monthlyAll0 m && monthlyAll0 fc && monthlyAll0 fu then []
     else [SummaryTree.mk label m fc fu (pruneList children)]) ++ pruneList rest
termination_by l => sizeOf l

/-- Modelled from the spec: the forest the Aggregator returns (roll-up,
then pruning). -/
def aggregatorForest (forest : List RawCategory) : List SummaryTree :=
  pruneList (aggregateList forest)

/-- All nodes of a forest, depth-first. -/
def collectNodes : List SummaryTree → List SummaryTree
  | [] => []
  | SummaryTree.mk label m fc fu children :: rest =>
    SummaryTree.mk label m fc fu children :: (collectNodes children ++ collectNodes rest)
termination_by l => sizeOf l

theorem aggregateList_nil : aggregateList [] = [] := by
  rw [aggregateList]

theorem aggregateList_cons (label : String) (a fc fu : MonthlyArr)
    (children rest : List RawCategory) :
    aggregateList (RawCategory.mk label a fc fu children :: rest)
      = (if children.isEmpty then SummaryTree.mk label a fc fu []
         else
           SummaryTree.mk label
             (sumMonthly ((aggregateList children).map SummaryTree.monthly))
             (sumMonthly ((aggregateList children).map SummaryTree.fCertain))
             (sumMonthly ((aggregateList children).map SummaryTree.fUncertain))
             (aggregateList children)) ::
          aggregateList rest := by
  rw [aggregateList]

theorem pruneList_nil : pruneList [] = [] := by
  rw [pruneList]

theorem pruneList_cons (label : String) (m fc fu : MonthlyArr)
    (children rest : List SummaryTree) :
    pruneList (SummaryTree.mk label m fc fu children :: rest)
      = (if monthlyAll0 m && monthlyAll0 fc && monthlyAll0 fu then []
         else [SummaryTree.mk label m fc fu (pruneList children)]) ++ pruneList rest := by
  rw [pruneList]

theorem collectNodes_nil : collectNodes [] = [] := by
  rw [collectNodes]

theorem collectNodes_cons (label : String) (m fc fu : MonthlyArr)
    (children rest : List SummaryTree) :
    collectNodes (SummaryTree.mk label m fc fu children :: rest)
      = SummaryTree.mk label m fc fu children ::
          (collectNodes children ++ collectNodes rest) := by
  rw [collectNodes]

theorem monthlyAll0_iff (m : MonthlyArr) : monthlyAll0 m = true ↔ m = zeroMonthly := by
  unfold monthlyAll0
  rw [List.all_eq_true]
  constructor
  · intro h
    funext i
    have := h i (List.mem_finRange i)
    simpa [zeroMonthly] using this
  · intro h i hi
    rw [h]
    simp [zeroMonthly]

theorem addMonthly_zero (x : MonthlyArr) : addMonthly zeroMonthly x = x := by
  funext i
  simp [addMonthly, zeroMonthly]

/-- Roll-up invariant of a node: a non-leaf's monthly array is the
element-wise sum of its children's monthly arrays. -/
def RollupOk (n : SummaryTree) : Prop :=
  n.children ≠ [] → n.monthly = sumMonthly (n.children.map SummaryTree.monthly)

theorem aggregate_rollup :
    ∀ (N : Nat) (l : List RawCategory), sizeOf l ≤ N →
      ∀ node ∈ collectNodes (aggregateList l), RollupOk node := by
  intro N
  induction N with
  | zero =>
    intro l hl node hmem
    match l with
    | [] =>
      rw [aggregateList_nil, collectNodes_nil] at hmem
      simp at hmem
    | x :: xs =>
      exfalso
      simp only [List.cons.sizeOf_spec] at hl
      omega
  | succ k ih =>
    intro l hl node hmem
    match l with
    | [] =>
      rw [aggregateList_nil, collectNodes_nil] at hmem
      simp at hmem
    | RawCategory.mk label a fc fu children :: rest =>
      have hsz : sizeOf children ≤ k ∧ sizeOf rest ≤ k := by
        simp only [List.cons.sizeOf_spec, RawCategory.mk.sizeOf_spec] at hl
        omega
      rw [aggregateList_cons] at hmem
      by_cases hc : children.isEmpty
      · rw [if_pos hc, collectNodes_cons, collectNodes_nil, List.nil_append] at hmem
        rcases List.mem_cons.mp hmem with rfl | hmem2
        · intro hne
          exact absurd rfl hne
        · exact ih rest hsz.2 node hmem2
      · rw [if_neg hc, collectNodes_cons] at hmem
        rcases List.mem_cons.mp hmem with rfl | hmem2
        · intro hne
          rfl
        · rcases List.mem_append.mp hmem2 with hmem3 | hmem3
          · exact ih children hsz.1 node hmem3
          · exact ih rest hsz.2 node hmem3

theorem pruneList_sum_monthly :
    ∀ (l : List SummaryTree),
      sumMonthly ((pruneList l).map SummaryTree.monthly)
        = sumMonthly (l.map SummaryTree.monthly) := by
  intro l
  induction l with
  | nil => rw [pruneList_nil]
  | cons hd rest ih =>
    obtain ⟨label, m, fc, fu, cs⟩ := hd
    rw [pruneList_cons]
    by_cases hz : (monthlyAll0 m && monthlyAll0 fc && monthlyAll0 fu) = true
    · rw [if_pos hz, List.nil_append, ih, List.map_cons]
      have hm : m = zeroMonthly := by
        simp only [Bool.and_eq_true] at hz
        exact (monthlyAll0_iff m).mp hz.1.1
      show sumMonthly (rest.map SummaryTree.monthly)
        = addMonthly (SummaryTree.monthly (SummaryTree.mk label m fc fu cs))
            (sumMonthly (rest.map SummaryTree.monthly))
      show sumMonthly (rest.map SummaryTree.monthly)
        = addMonthly m (sumMonthly (rest.map SummaryTree.monthly))
      rw [hm, addMonthly_zero]
    · rw [if_neg hz, List.singleton_append, List.map_cons, List.map_cons]
      show addMonthly m (sumMonthly ((pruneList rest).map SummaryTree.monthly))
        = addMonthly m (sumMonthly (rest.map SummaryTree.monthly))
      rw [ih]

theorem prune_rollup :
    ∀ (N : Nat) (l : List SummaryTree), sizeOf l ≤ N →
      (∀ node ∈ collectNodes l, RollupOk node) →
      ∀ node ∈ collectNodes (pruneList l), RollupOk node := by
  intro N
  induction N with
  | zero =>
    intro l hl hall node hmem
    match l with
    | [] =>
      rw [pruneList_nil, collectNodes_nil] at hmem
      simp at hmem
    | x :: xs =>
      exfalso
      simp only [List.cons.sizeOf_spec] at hl
      omega
  | succ k ih =>
    intro l hl hall node hmem
    match l with
    | [] =>
      rw [pruneList_nil, collectNodes_nil] at hmem
      simp at hmem
    | SummaryTree.mk label m fc fu cs :: rest =>
      have hsz : sizeOf cs ≤ k ∧ sizeOf rest ≤ k := by
        simp only [List.cons.sizeOf_spec, SummaryTree.mk.sizeOf_spec] at hl
        omega
      have hallcs : ∀ n2 ∈ collectNodes cs, RollupOk n2 := by
        intro n2 h2
        apply hall
        rw [collectNodes_cons]
        exact List.mem_cons_of_mem _ (List.mem_append_left _ h2)
      have hallrest : ∀ n2 ∈ collectNodes rest, RollupOk n2 := by
        intro n2 h2
        apply hall
        rw [collectNodes_cons]
        exact List.mem_cons_of_mem _ (List.mem_append_right _ h2)
      rw [pruneList_cons] at hmem
      by_cases hz : (monthlyAll0 m && monthlyAll0 fc && monthlyAll0 fu) = true
      · rw [if_pos hz, List.nil_append] at hmem
        exact ih rest hsz.2 hallrest node hmem
      · rw [if_neg hz, List.singleton_append, collectNodes_cons] at hmem
        rcases List.mem_cons.mp hmem with rfl | hmem2
        · intro hne
          have hcs : cs ≠ [] := by
            intro hcs
            rw [hcs, pruneList_nil] at hne
            exact hne rfl
          have hhead : RollupOk (SummaryTree.mk label m fc fu cs) := by
            apply hall
            rw [collectNodes_cons]
            exact List.mem_cons_self _ _
          have hm : m = sumMonthly (cs.map SummaryTree.monthly) := hhead hcs
          show m = sumMonthly ((pruneList cs).map SummaryTree.monthly)
          rw [pruneList_sum_monthly]
          exact hm
        · rcases List.mem_append.mp hmem2 with hmem3 | hmem3
          · exact ih cs hsz.1 hallcs node hmem3
          · exact ih rest hsz.2 hallrest node hmem3

/-- C2: in every tree the Aggregator returns, every non-leaf node's
12-element monthly array is the element-wise sum of its children's
monthly arrays, down to the leaves (pruned all-zero children cannot
change any sum). -/
theorem claim_C2_rollup_consistency :
    ∀ (forest : List RawCategory) (node : SummaryTree),
      node ∈ collectNodes (aggregatorForest forest) →
      node.children ≠ [] →
      node.monthly = sumMonthly (node.children.map SummaryTree.monthly) := by
  intro forest node hmem hne
  have h1 := aggregate_rollup (sizeOf forest) forest le_rfl
  have h2 := prune_rollup (sizeOf (aggregateList forest)) (aggregateList forest)
    le_rfl h1 node (by unfold aggregatorForest at hmem; exact hmem)
  exact h2 hne

/-- A constant monthly array used in the C2 witness. -/
def monthlyConst5 : MonthlyArr := fun _ => 5

/-- Witness input for C2: a parent with one active and one all-zero leaf
(the all-zero leaf is pruned from the returned tree). -/
def exampleRawForest : List RawCategory :=
  [RawCategory.mk "P" zeroMonthly zeroMonthly zeroMonthly
    [RawCategory.mk "A" monthlyConst5 zeroMonthly zeroMonthly [],
     RawCategory.mk "B" zeroMonthly zeroMonthly zeroMonthly []]]

/-- Witness for C2 on the concrete example forest. -/
theorem claim_C2_witness :
    (SummaryTree.mk "P" (sumMonthly [monthlyConst5, zeroMonthly])
        (sumMonthly [zeroMonthly, zeroMonthly]) (sumMonthly [zeroMonthly, zeroMonthly])
        [SummaryTree.mk "A" monthlyConst5 zeroMonthly zeroMonthly []]).monthly
      = sumMonthly
          (((SummaryTree.mk "P" (sumMonthly [monthlyConst5, zeroMonthly])
              (sumMonthly [zeroMonthly, zeroMonthly])
              (sumMonthly [zeroMonthly, zeroMonthly])
              [SummaryTree.mk "A" monthlyConst5 zeroMonthly zeroMonthly []]).children).map
            SummaryTree.monthly) := by
  have hch : aggregateList
      [RawCategory.mk "A" monthlyConst5 zeroMonthly zeroMonthly [],
       RawCategory.mk "B" zeroMonthly zeroMonthly zeroMonthly []]
      = [SummaryTree.mk "A" monthlyConst5 zeroMonthly zeroMonthly [],
         SummaryTree.mk "B" zeroMonthly zeroMonthly zeroMonthly []] := by
    rw [aggregateList_cons, aggregateList_cons, aggregateList_nil]
    rfl
  have hagg : aggregateList exampleRawForest
      = [SummaryTree.mk "P" (sumMonthly [monthlyConst5, zeroMonthly])
          (sumMonthly [zeroMonthly, zeroMonthly]) (sumMonthly [zeroMonthly, zeroMonthly])
          [SummaryTree.mk "A" monthlyConst5 zeroMonthly zeroMonthly [],
           SummaryTree.mk "B" zeroMonthly zeroMonthly zeroMonthly []]] := by
    unfold exampleRawForest
    rw [aggregateList_cons, aggregateList_nil, hch]
    rfl
  have hprune : aggregatorForest exampleRawForest
      = [SummaryTree.mk "P" (sumMonthly [monthlyConst5, zeroMonthly])
          (sumMonthly [zeroMonthly, zeroMonthly]) (sumMonthly [zeroMonthly, zeroMonthly])
          [SummaryTree.mk "A" monthlyConst5 zeroMonthly zeroMonthly []]] := by
    unfold aggregatorForest
    rw [hagg, pruneList_cons, pruneList_cons, pruneList_cons, pruneList_nil]
    rw [if_neg (by decide), if_neg (by decide), if_pos (by decide)]
    rfl
  have hmem : (SummaryTree.mk "P" (sumMonthly [monthlyConst5, zeroMonthly])
      (sumMonthly [zeroMonthly, zeroMonthly]) (sumMonthly [zeroMonthly, zeroMonthly])
      [SummaryTree.mk "A" monthlyConst5 zeroMonthly zeroMonthly []])
      ∈ collectNodes (aggregatorForest exampleRawForest) := by
    rw [hprune, collectNodes_cons]
    exact List.mem_cons_self _ _
  exact claim_C2_rollup_consistency exampleRawForest _ hmem (List.cons_ne_nil _ _)
